import Mathlib

/-!
Verification of the task-manager store (`task_manager/cli.py`).

The store keeps an ordered list of task records and persists the whole
list to a JSON file after every successful mutation.  We embed the task
record, the in-memory operations of `TaskManager`, and a state that pairs
the in-memory list with the persisted file content, then prove the
behavioural properties of the store operations.
-/

namespace TaskCLI

/-- A task record, mirroring the dictionary built in `TaskManager.add_task`:
`id`, `description`, `status`, `created_at`, `updated_at`. Ids are Python
ints, so we use `Int`. -/
structure Task where
  id : Int
  description : String
  status : String
  created_at : String
  updated_at : String
deriving Repr, DecidableEq

/-- The in-memory task list (`self.tasks`). -/
abbrev Tasks := List Task

/-- `TaskManager.add_task`: build a new record with
`id = len(self.tasks) + 1`, status `"todo"`, empty timestamps, append it,
and report the new id. -/
def add_task (ts : Tasks) (description : String) : Tasks × Int :=
  let new_task : Task :=
    { id := (ts.length : Int) + 1
      description := description
      status := "todo"
      created_at := ""
      updated_at := "" }
  (ts ++ [new_task], new_task.id)

/-- `TaskManager.update_task`: scan for the first task whose `id` matches,
replace its `description`, set `updated_at` to the empty string, and stop;
the Boolean records whether a match was found (the code returns from the
loop on a match and prints a warning otherwise). -/
def update_task : Tasks → Int → String → Tasks × Bool
  | [], _, _ => ([], false)
  | t :: ts, task_id, description =>
    if t.id = task_id then
      ({ t with description := description, updated_at := "" } :: ts, true)
    else
      let r := update_task ts task_id description
      (t :: r.1, r.2)

/-- `TaskManager.delete_task`: keep every task whose id differs from
`task_id` (a list comprehension, so all matches are dropped); the Boolean
records whether the list shrank, which is the condition under which the
code saves. -/
def delete_task (ts : Tasks) (task_id : Int) : Tasks × Bool :=
  let kept := ts.filter (fun t => t.id ≠ task_id)
  (kept, decide (kept.length < ts.length))

/-- `TaskManager.mark_task`: scan for the first task whose `id` matches,
set its `status` to the given string (no validation of the string), set
`updated_at` to the empty string, and stop; the Boolean records whether a
match was found. -/
def mark_task : Tasks → Int → String → Tasks × Bool
  | [], _, _ => ([], false)
  | t :: ts, task_id, status =>
    if t.id = task_id then
      ({ t with status := status, updated_at := "" } :: ts, true)
    else
      let r := mark_task ts task_id status
      (t :: r.1, r.2)

/-- `TaskManager.list_tasks`: `self.tasks if not status else [t for t in
self.tasks if t["status"] == status]`.  Python's `not status` is true both
for `None` and for the empty string, so an empty-string filter returns the
whole list. -/
def list_tasks (ts : Tasks) (status : Option String) : Tasks :=
  match status with
  | none => ts
  | some s => if s = "" then ts else ts.filter (fun t => t.status = s)

/-- The persisted file: absent, holding bytes that do not parse as JSON,
or holding the JSON serialisation of a task list. -/
inductive FileState
  | missing
  | corrupt
  | stored (ts : Tasks)
deriving Repr, DecidableEq

/-- `TaskManager.load_tasks`: a missing file is created holding the empty
array; a file whose content raises `JSONDecodeError` is rewritten to the
empty array; otherwise the stored list is returned and the file is left
as it was. -/
def load_tasks : FileState → Tasks × FileState
  | .missing => ([], .stored [])
  | .corrupt => ([], .stored [])
  | .stored ts => (ts, .stored ts)

/-- The state of one `TaskManager`: the in-memory list and the backing
file's content. -/
structure TMState where
  tasks : Tasks
  file : FileState
deriving Repr, DecidableEq

/-- `TaskManager.save_tasks`: overwrite the file with the current list. -/
def save_tasks (s : TMState) : TMState :=
  { tasks := s.tasks, file := .stored s.tasks }

/-- `add_task` at the state level: the code always saves after appending. -/
def add_taskS (s : TMState) (description : String) : TMState × Int :=
  let r := add_task s.tasks description
  (save_tasks { tasks := r.1, file := s.file }, r.2)

/-- `update_task` at the state level: the code saves only when a match was
found. -/
def update_taskS (s : TMState) (task_id : Int) (description : String) :
    TMState × Bool :=
  let r := update_task s.tasks task_id description
  (if r.2 then save_tasks { tasks := r.1, file := s.file }
   else { tasks := r.1, file := s.file }, r.2)

/-- `delete_task` at the state level: the code saves only when the list
shrank. -/
def delete_taskS (s : TMState) (task_id : Int) : TMState × Bool :=
  let r := delete_task s.tasks task_id
  (if r.2 then save_tasks { tasks := r.1, file := s.file }
   else { tasks := r.1, file := s.file }, r.2)

/-- `mark_task` at the state level: the code saves only when a match was
found. -/
def mark_taskS (s : TMState) (task_id : Int) (status : String) :
    TMState × Bool :=
  let r := mark_task s.tasks task_id status
  (if r.2 then save_tasks { tasks := r.1, file := s.file }
   else { tasks := r.1, file := s.file }, r.2)

/-- One store mutation, for reasoning about reachable states. -/
inductive Op
  | add (d : String)
  | update (id : Int) (d : String)
  | delete (id : Int)
  | mark (id : Int) (s : String)
deriving Repr, DecidableEq

/-- Apply one mutation to the in-memory list. -/
def applyOp (ts : Tasks) : Op → Tasks
  | .add d => (add_task ts d).1
  | .update i d => (update_task ts i d).1
  | .delete i => (delete_task ts i).1
  | .mark i st => (mark_task ts i st).1

/-- Apply a sequence of mutations, oldest first. -/
def applyOps (ts : Tasks) (ops : List Op) : Tasks :=
  ops.foldl applyOp ts

/-! ### Helper lemmas -/

theorem applyOps_nil (ts : Tasks) : applyOps ts [] = ts := rfl

theorem applyOps_cons (ts : Tasks) (o : Op) (ops : List Op) :
    applyOps ts (o :: ops) = applyOps (applyOp ts o) ops := rfl

theorem add_ids_aux (ds : List String) : ∀ ts : Tasks,
    (applyOps ts (ds.map Op.add)).map Task.id
      = ts.map Task.id
        ++ (List.range ds.length).map (fun k => ((ts.length + k : Nat) : Int) + 1) := by
  induction ds with
  | nil => intro ts; simp [applyOps]
  | cons d ds ih =>
      intro ts
      have h := ih (ts ++ [(⟨(ts.length : Int) + 1, d, "todo", "", ""⟩ : Task)])
      simp only [List.map_cons, applyOps_cons, applyOp, add_task] at h ⊢
      rw [h]
      simp only [List.length_cons, List.range_succ_eq_map, List.map_cons, List.map_map,
        List.map_append, List.length_append, List.length_cons, List.length_nil,
        List.append_assoc, List.cons_append, List.nil_append]
      have htail :
          List.map (fun k => ((ts.length + (0 + 1) + k : Nat) : Int) + 1)
              (List.range ds.length)
            = List.map ((fun k => ((ts.length + k : Nat) : Int) + 1) ∘ Nat.succ)
              (List.range ds.length) := by
        apply List.map_congr_left
        intro k _
        simp only [Function.comp_apply, Nat.succ_eq_add_one]
        push_cast
        ring
      simp [htail]
      intro a _
      ring

/-! ### C1: add_task appends one fresh task and persists -/

/-- C1: for every store state and description, `add_task` appends exactly
one new task at the end, with id equal to the previous length plus one,
status `"todo"` and empty timestamps; the whole list is saved to the file
and the new id is reported. -/
theorem add_task_spec (s : TMState) (d : String) :
    add_taskS s d =
      ({ tasks := s.tasks ++ [(⟨(s.tasks.length : Int) + 1, d, "todo", "", ""⟩ : Task)],
         file := .stored
           (s.tasks ++ [(⟨(s.tasks.length : Int) + 1, d, "todo", "", ""⟩ : Task)]) },
       (s.tasks.length : Int) + 1) := rfl

/-! ### C2: N sequential adds from empty give ids 1..N -/

/-- C2: adding any sequence of N descriptions to the empty store yields
tasks whose ids are, in insertion order, exactly 1, 2, ..., N. -/
theorem add_n_tasks_ids (ds : List String) :
    (applyOps [] (ds.map Op.add)).map Task.id
      = (List.range ds.length).map (fun k => ((k : Nat) : Int) + 1) := by
  have h := add_ids_aux ds []
  simpa using h

/-! ### C3: the add/add/delete/add scenario -/

/-- The resulting task list of `add "A"; add "B"; delete 1; add "C"`
starting from the empty store. -/
def scenarioC3 : Tasks :=
  applyOps [] [.add "A", .add "B", .delete 1, .add "C"]

/-- C3 counterexample: the scenario does NOT leave ids `1, 2, 2`; the
`delete 1` call removes the task with id 1, so only two tasks remain. -/
theorem scenarioC3_ids_ne : scenarioC3.map Task.id ≠ [1, 2, 2] := by decide

/-- C3 amended: the scenario leaves two tasks whose ids are, in order,
`2, 2` — the duplicate produced by the count-plus-one id policy. -/
theorem scenarioC3_ids : scenarioC3.map Task.id = [2, 2] := by decide

/-! ### First-match and not-found lemmas for the scanning operations -/

theorem update_task_first (pre : Tasks) (post : Tasks) (t : Task) (i : Int) (d : String)
    (hpre : ∀ u ∈ pre, u.id ≠ i) (ht : t.id = i) :
    update_task (pre ++ t :: post) i d
      = (pre ++ { t with description := d, updated_at := "" } :: post, true) := by
  induction pre with
  | nil => simp [update_task, ht]
  | cons u pre ih =>
      have hu : u.id ≠ i := hpre u (by simp)
      have h := ih (fun v hv => hpre v (by simp [hv]))
      simp [update_task, hu, h]

theorem update_task_not_found (ts : Tasks) (i : Int) (d : String)
    (h : ∀ u ∈ ts, u.id ≠ i) : update_task ts i d = (ts, false) := by
  induction ts with
  | nil => rfl
  | cons u rest ih =>
      have hu : u.id ≠ i := h u (by simp)
      have h2 := ih (fun v hv => h v (by simp [hv]))
      simp [update_task, hu, h2]

theorem mark_task_first (pre : Tasks) (post : Tasks) (t : Task) (i : Int) (st : String)
    (hpre : ∀ u ∈ pre, u.id ≠ i) (ht : t.id = i) :
    mark_task (pre ++ t :: post) i st
      = (pre ++ { t with status := st, updated_at := "" } :: post, true) := by
  induction pre with
  | nil => simp [mark_task, ht]
  | cons u pre ih =>
      have hu : u.id ≠ i := hpre u (by simp)
      have h := ih (fun v hv => hpre v (by simp [hv]))
      simp [mark_task, hu, h]

theorem mark_task_not_found (ts : Tasks) (i : Int) (st : String)
    (h : ∀ u ∈ ts, u.id ≠ i) : mark_task ts i st = (ts, false) := by
  induction ts with
  | nil => rfl
  | cons u rest ih =>
      have hu : u.id ≠ i := h u (by simp)
      have h2 := ih (fun v hv => h v (by simp [hv]))
      simp [mark_task, hu, h2]

theorem delete_task_fst (ts : Tasks) (i : Int) :
    (delete_task ts i).1 = ts.filter (fun t => t.id ≠ i) := rfl

theorem delete_task_snd (ts : Tasks) (i : Int) :
    (delete_task ts i).2 = ts.any (fun t => t.id = i) := by
  induction ts with
  | nil => rfl
  | cons u rest ih =>
      by_cases hu : u.id = i
      · have hle := List.length_filter_le (fun t => decide (t.id ≠ i)) rest
        have hlt : (List.filter (fun t => decide (t.id ≠ i)) (u :: rest)).length
            < (u :: rest).length := by
          rw [List.filter_cons, if_neg (by simp [hu])]
          simp only [List.length_cons]
          omega
        have h2 : (delete_task (u :: rest) i).2 = true := by
          simp only [delete_task]
          exact decide_eq_true hlt
        rw [h2]
        simp [hu]
      · have heq : List.filter (fun t => decide (t.id ≠ i)) (u :: rest)
            = u :: List.filter (fun t => decide (t.id ≠ i)) rest := by
          rw [List.filter_cons, if_pos (by simp [hu])]
        simp only [delete_task] at ih ⊢
        rw [heq]
        simp only [List.length_cons]
        rw [decide_eq_decide.mpr
          (by omega :
            (List.filter (fun t => decide (t.id ≠ i)) rest).length + 1 < rest.length + 1
              ↔ (List.filter (fun t => decide (t.id ≠ i)) rest).length < rest.length)]
        rw [ih]
        simp [hu]

theorem delete_task_not_found (ts : Tasks) (i : Int)
    (h : ∀ u ∈ ts, u.id ≠ i) : delete_task ts i = (ts, false) := by
  have hf : ts.filter (fun t => t.id ≠ i) = ts := by
    apply List.filter_eq_self.mpr
    intro a ha
    simpa using h a ha
  simp only [delete_task]
  rw [hf]
  simp

/-! ### C4: update -/

/-- C4 counterexample: on the list holding the single task
`⟨1, "a", "todo", "", "x"⟩`, updating task 1 to description `"b"` does
NOT merely change the description: the code also overwrites `updated_at`
(here from `"x"` to `""`), so the result differs from the task with only
its description replaced. -/
theorem update_not_only_description :
    update_task [(⟨1, "a", "todo", "", "x"⟩ : Task)] 1 "b"
      ≠ ([(⟨1, "b", "todo", "", "x"⟩ : Task)], true) := by decide

/-- C4 amended: for a list containing a task with the given id, update
replaces the description of the first matching task and clears its
`updated_at` to the empty string, leaves its other fields and every other
task untouched, and persists the new list; for an id matching no task it
reports not-found and leaves state and file unchanged. -/
theorem update_task_behavior :
    (∀ (s : TMState) (pre post : Tasks) (t : Task) (i : Int) (d : String),
        s.tasks = pre ++ t :: post →
        (∀ u ∈ pre, u.id ≠ i) → t.id = i →
        update_taskS s i d =
          ({ tasks := pre ++ { t with description := d, updated_at := "" } :: post,
             file := .stored
               (pre ++ { t with description := d, updated_at := "" } :: post) },
           true))
  ∧ (∀ (s : TMState) (i : Int) (d : String),
        (∀ u ∈ s.tasks, u.id ≠ i) →
        update_taskS s i d = (s, false)) := by
  constructor
  · intro s pre post t i d hs hpre ht
    have h := update_task_first pre post t i d hpre ht
    simp [update_taskS, hs, h, save_tasks]
  · intro s i d h
    have h2 := update_task_not_found s.tasks i d h
    simp [update_taskS, h2]

/-- Witness for C4: both branches of the amended statement evaluated on
concrete inputs. -/
theorem update_task_behavior_witness :
    update_taskS ⟨[(⟨1, "a", "todo", "", "x"⟩ : Task)], .stored []⟩ 1 "b"
        = ({ tasks := [(⟨1, "b", "todo", "", ""⟩ : Task)],
             file := .stored [(⟨1, "b", "todo", "", ""⟩ : Task)] }, true)
    ∧ update_taskS ⟨[(⟨1, "a", "todo", "", "x"⟩ : Task)], .stored []⟩ 7 "b"
        = (⟨[(⟨1, "a", "todo", "", "x"⟩ : Task)], .stored []⟩, false) := by
  constructor
  · simpa using update_task_behavior.1
      ⟨[(⟨1, "a", "todo", "", "x"⟩ : Task)], .stored []⟩
      [] [] ⟨1, "a", "todo", "", "x"⟩ 1 "b" rfl (by simp) rfl
  · exact update_task_behavior.2
      ⟨[(⟨1, "a", "todo", "", "x"⟩ : Task)], .stored []⟩ 7 "b" (by decide)

/-! ### C7: unknown-id operations are no-ops -/

/-- C7: when no stored task carries the given id, update, delete and mark
each return not-found, leave the in-memory list unchanged, and leave the
backing file exactly as it was; none of them can fail in any other way
(the embedded operations are total functions). -/
theorem missing_id_noop (s : TMState) (i : Int) (d st : String)
    (h : ∀ u ∈ s.tasks, u.id ≠ i) :
    update_taskS s i d = (s, false)
      ∧ delete_taskS s i = (s, false)
      ∧ mark_taskS s i st = (s, false) := by
  refine ⟨?_, ?_, ?_⟩
  · have h2 := update_task_not_found s.tasks i d h
    simp [update_taskS, h2]
  · have h2 := delete_task_not_found s.tasks i h
    simp [delete_taskS, h2]
  · have h2 := mark_task_not_found s.tasks i st h
    simp [mark_taskS, h2]

/-- Witness for C7: a store holding task 1 with a deliberately stale file,
probed with the absent id 5. -/
theorem missing_id_noop_witness :
    update_taskS ⟨[(⟨1, "a", "todo", "", ""⟩ : Task)], .stored []⟩ 5 "d"
        = (⟨[(⟨1, "a", "todo", "", ""⟩ : Task)], .stored []⟩, false)
      ∧ delete_taskS ⟨[(⟨1, "a", "todo", "", ""⟩ : Task)], .stored []⟩ 5
        = (⟨[(⟨1, "a", "todo", "", ""⟩ : Task)], .stored []⟩, false)
      ∧ mark_taskS ⟨[(⟨1, "a", "todo", "", ""⟩ : Task)], .stored []⟩ 5 "done"
        = (⟨[(⟨1, "a", "todo", "", ""⟩ : Task)], .stored []⟩, false) :=
  missing_id_noop ⟨[(⟨1, "a", "todo", "", ""⟩ : Task)], .stored []⟩ 5 "d" "done"
    (by decide)

/-! ### C10: mark accepts any status string -/

/-- C10: `mark_task` validates nothing: for any string whatsoever, marking
an existing task stores that string verbatim as the task's status (also
clearing `updated_at`) and persists the list, so statuses outside
`todo`, `in-progress`, `done` can reach the store and the file. -/
theorem mark_task_any_status (s : TMState) (pre post : Tasks) (t : Task)
    (i : Int) (st : String)
    (hs : s.tasks = pre ++ t :: post)
    (hpre : ∀ u ∈ pre, u.id ≠ i) (ht : t.id = i) :
    mark_taskS s i st =
      ({ tasks := pre ++ { t with status := st, updated_at := "" } :: post,
         file := .stored
           (pre ++ { t with status := st, updated_at := "" } :: post) },
       true) := by
  have h := mark_task_first pre post t i st hpre ht
  simp [mark_taskS, hs, h, save_tasks]

/-- Witness for C10: the status string `"bogus"`, outside the documented
enum, is stored and persisted verbatim. -/
theorem mark_task_any_status_witness :
    mark_taskS ⟨[(⟨1, "a", "todo", "", ""⟩ : Task)],
        .stored [(⟨1, "a", "todo", "", ""⟩ : Task)]⟩ 1 "bogus"
      = ({ tasks := [(⟨1, "a", "bogus", "", ""⟩ : Task)],
           file := .stored [(⟨1, "a", "bogus", "", ""⟩ : Task)] }, true) := by
  simpa using mark_task_any_status
    ⟨[(⟨1, "a", "todo", "", ""⟩ : Task)], .stored [(⟨1, "a", "todo", "", ""⟩ : Task)]⟩
    [] [] ⟨1, "a", "todo", "", ""⟩ 1 "bogus" rfl (by simp) rfl

/-! ### C5: delete -/

theorem delete_exactly_one : ∀ (ts : Tasks) (i : Int), (ts.map Task.id).Nodup →
    (∃ t ∈ ts, t.id = i) → (delete_task ts i).1.length + 1 = ts.length := by
  intro ts
  induction ts with
  | nil =>
      intro i _ hex
      simp at hex
  | cons u rest ih =>
      intro i hnd hex
      simp only [List.map_cons, List.nodup_cons] at hnd
      simp only [delete_task_fst] at ih ⊢
      by_cases hu : u.id = i
      · have hrest : rest.filter (fun t => t.id ≠ i) = rest := by
          apply List.filter_eq_self.mpr
          intro a ha
          have : a.id ∈ rest.map Task.id := List.mem_map_of_mem Task.id ha
          simp only [decide_eq_true_eq]
          intro hai
          exact hnd.1 (by rw [hu, ← hai]; exact this)
        rw [List.filter_cons, if_neg (by simp [hu]), hrest]
        simp
      · rcases hex with ⟨t, htmem, hti⟩
        have htr : t ∈ rest := by
          rcases List.mem_cons.mp htmem with h | h
          · exact absurd (h ▸ hti) hu
          · exact h
        have h := ih i hnd.2 ⟨t, htr, hti⟩
        rw [List.filter_cons, if_pos (by simp [hu])]
        simp only [List.length_cons]
        omega

/-- C5 counterexample: on a list holding two tasks that share id 2 (such
duplicate lists arise from the delete-then-add scenario), delete removes
BOTH, not exactly one: the list shrinks by two. -/
theorem delete_removes_two :
    (delete_task [(⟨2, "B", "todo", "", ""⟩ : Task), ⟨2, "C", "todo", "", ""⟩] 2).1.length + 1
      ≠ [(⟨2, "B", "todo", "", ""⟩ : Task), ⟨2, "C", "todo", "", ""⟩].length := by decide

/-- C5 amended: delete removes every task carrying the given id — exactly
one whenever the stored ids are pairwise distinct and the id is present —
leaves the list unchanged and signals not-found when no task matches, and
a second delete with the same id is always a no-op. -/
theorem delete_task_behavior :
    (∀ (ts : Tasks) (i : Int),
        delete_task ts i
          = (ts.filter (fun t => t.id ≠ i), ts.any (fun t => t.id = i)))
  ∧ (∀ (ts : Tasks) (i : Int),
        (∀ u ∈ ts, u.id ≠ i) → delete_task ts i = (ts, false))
  ∧ (∀ (ts : Tasks) (i : Int),
        delete_task (delete_task ts i).1 i = ((delete_task ts i).1, false))
  ∧ (∀ (ts : Tasks) (i : Int), (ts.map Task.id).Nodup →
        (∃ t ∈ ts, t.id = i) → (delete_task ts i).1.length + 1 = ts.length) := by
  refine ⟨?_, ?_, ?_, ?_⟩
  · intro ts i
    conv_rhs => rw [← delete_task_fst ts i, ← delete_task_snd ts i]
  · intro ts i h
    exact delete_task_not_found ts i h
  · intro ts i
    apply delete_task_not_found
    intro u hu
    rw [delete_task_fst] at hu
    simpa using (List.mem_filter.mp hu).2
  · exact delete_exactly_one

/-- Witness for C5: on a duplicate-free two-task list containing id 1,
delete shrinks the list by exactly one; and a list with no matching id is
returned unchanged. -/
theorem delete_task_behavior_witness :
    (delete_task [(⟨1, "B", "todo", "", ""⟩ : Task), ⟨2, "C", "todo", "", ""⟩] 1).1.length + 1
        = [(⟨1, "B", "todo", "", ""⟩ : Task), ⟨2, "C", "todo", "", ""⟩].length
      ∧ delete_task [(⟨1, "B", "todo", "", ""⟩ : Task)] 9
        = ([(⟨1, "B", "todo", "", ""⟩ : Task)], false) :=
  ⟨delete_task_behavior.2.2.2 _ 1 (by decide) ⟨⟨1, "B", "todo", "", ""⟩, by decide, rfl⟩,
   delete_task_behavior.2.1 _ 9 (by decide)⟩

/-! ### C6: list -/

/-- C6 counterexample: with the empty string as filter, the code returns
the whole list (Python's `not status` is true for `""`), not the
subsequence of tasks whose status equals the filter, which here is empty. -/
theorem list_tasks_empty_filter :
    list_tasks [(⟨1, "a", "todo", "", ""⟩ : Task)] (some "")
      ≠ [(⟨1, "a", "todo", "", ""⟩ : Task)].filter (fun t => t.status = "") := by decide

/-- C6 amended: with no filter the stored tasks are returned exactly, in
order; with any NON-empty filter string exactly the subsequence of tasks
with that status is returned, in order; the empty-string filter is treated
like no filter and returns everything. Listing is a pure query: it takes
the list and returns a list, touching neither memory nor file. -/
theorem list_tasks_behavior :
    (∀ ts : Tasks, list_tasks ts none = ts)
  ∧ (∀ (ts : Tasks) (st : String), st ≠ "" →
        list_tasks ts (some st) = ts.filter (fun t => t.status = st))
  ∧ (∀ ts : Tasks, list_tasks ts (some "") = ts) := by
  refine ⟨fun ts => rfl, ?_, fun ts => rfl⟩
  intro ts st h
  simp [list_tasks, h]

/-- Witness for C6: filtering a two-task list by `"done"` keeps exactly
the done task. -/
theorem list_tasks_behavior_witness :
    list_tasks [(⟨1, "a", "todo", "", ""⟩ : Task), ⟨2, "b", "done", "", ""⟩] (some "done")
      = [(⟨1, "a", "todo", "", ""⟩ : Task), ⟨2, "b", "done", "", ""⟩].filter
          (fun t => t.status = "done") :=
  list_tasks_behavior.2.1 _ "done" (by decide)

/-! ### C8: load recovery -/

/-- C8: loading from a backing file whose bytes are not valid JSON yields
the empty task list and rewrites the file to hold the empty array, and a
missing file is treated the same way; in both cases loading returns
normally (the embedded loader is a total function, mirroring the caught
`JSONDecodeError`). -/
theorem load_tasks_recovers :
    load_tasks .corrupt = ([], .stored []) ∧ load_tasks .missing = ([], .stored []) :=
  ⟨rfl, rfl⟩

/-! ### C9: descriptions -/

/-- C9 counterexample: the store accepts an empty description — a single
`add ""` reaches a state holding a task whose description is the empty
string, so the non-emptiness invariant fails. -/
theorem empty_description_reachable :
    ¬ (∀ t ∈ applyOps [] [Op.add ""], t.description ≠ "") := by decide

/-- Does this operation carry a non-empty description? Delete and mark
carry none. -/
def opDescOk : Op → Bool
  | .add d => decide (d ≠ "")
  | .update _ d => decide (d ≠ "")
  | .delete _ => true
  | .mark _ _ => true

theorem update_task_descriptions (i : Int) (d : String) : ∀ ts : Tasks,
    ∀ t ∈ (update_task ts i d).1,
      t.description = d ∨ ∃ u ∈ ts, t.description = u.description := by
  intro ts
  induction ts with
  | nil => simp [update_task]
  | cons u rest ih =>
      by_cases hu : u.id = i
      · simp only [update_task, if_pos hu]
        intro t ht
        rcases List.mem_cons.mp ht with rfl | htr
        · left; rfl
        · right; exact ⟨t, by simp [htr], rfl⟩
      · simp only [update_task, if_neg hu]
        intro t ht
        rcases List.mem_cons.mp ht with rfl | htr
        · right; exact ⟨t, by simp, rfl⟩
        · rcases ih t htr with h | ⟨v, hv, hveq⟩
          · left; exact h
          · right; exact ⟨v, by simp [hv], hveq⟩

theorem mark_task_descriptions (i : Int) (st : String) : ∀ ts : Tasks,
    ∀ t ∈ (mark_task ts i st).1, ∃ u ∈ ts, t.description = u.description := by
  intro ts
  induction ts with
  | nil => simp [mark_task]
  | cons u rest ih =>
      by_cases hu : u.id = i
      · simp only [mark_task, if_pos hu]
        intro t ht
        rcases List.mem_cons.mp ht with rfl | htr
        · exact ⟨u, by simp, rfl⟩
        · exact ⟨t, by simp [htr], rfl⟩
      · simp only [mark_task, if_neg hu]
        intro t ht
        rcases List.mem_cons.mp ht with rfl | htr
        · exact ⟨t, by simp, rfl⟩
        · rcases ih t htr with ⟨v, hv, hveq⟩
          exact ⟨v, by simp [hv], hveq⟩

theorem desc_inv_aux : ∀ (ops : List Op) (ts : Tasks),
    (∀ o ∈ ops, opDescOk o = true) → (∀ t ∈ ts, t.description ≠ "") →
    ∀ t ∈ applyOps ts ops, t.description ≠ "" := by
  intro ops
  induction ops with
  | nil =>
      intro ts _ hts
      simpa [applyOps] using hts
  | cons o ops ih =>
      intro ts hops hts
      rw [applyOps_cons]
      apply ih (applyOp ts o) (fun o' ho' => hops o' (by simp [ho']))
      cases o with
      | add d =>
          have hd : d ≠ "" := by
            have := hops (.add d) (by simp)
            simpa [opDescOk] using this
          intro t ht
          simp only [applyOp, add_task] at ht
          rcases List.mem_append.mp ht with h | h
          · exact hts t h
          · simp only [List.mem_singleton] at h
            subst h
            exact hd
      | update j d =>
          have hd : d ≠ "" := by
            have := hops (.update j d) (by simp)
            simpa [opDescOk] using this
          intro t ht
          rcases update_task_descriptions j d ts t ht with h | ⟨u, hu, hueq⟩
          · rw [h]; exact hd
          · rw [hueq]; exact hts u hu
      | delete j =>
          intro t ht
          simp only [applyOp, delete_task_fst] at ht
          exact hts t (List.mem_of_mem_filter ht)
      | mark j st =>
          intro t ht
          rcases mark_task_descriptions j st ts t ht with ⟨u, hu, hueq⟩
          rw [hueq]
          exact hts u hu

/-- C9 amended: the store itself never invents a description — every task
description in a reachable state is one the caller passed in — but it also
never validates one, so non-emptiness holds exactly when every description
handed to add and update is non-empty: under that assumption, every state
reachable from the empty store contains only tasks with non-empty
descriptions. -/
theorem desc_nonempty_invariant (ops : List Op)
    (h : ∀ o ∈ ops, opDescOk o = true) :
    ∀ t ∈ applyOps [] ops, t.description ≠ "" :=
  desc_inv_aux ops [] h (by simp)

/-- Witness for C9: a short run of add, mark and update with non-empty
descriptions keeps every description non-empty. -/
theorem desc_nonempty_invariant_witness :
    (∀ o ∈ [Op.add "x", Op.mark 1 "done", Op.update 1 "y"], opDescOk o = true)
      ∧ ∀ t ∈ applyOps [] [Op.add "x", Op.mark 1 "done", Op.update 1 "y"],
          t.description ≠ "" :=
  ⟨by decide, desc_nonempty_invariant _ (by decide)⟩

end TaskCLI
